import Mathlib

/-!
Verification of the infera API gateway's path matching, rate limiting,
authentication and docs-proxy logic.

Go strings are modelled as `List Char`, Go `time.Time` / `time.Duration`
values as `Int` nanosecond counts, and `float64` token counts as exact
rationals `ℚ`.  Machine-integer overflow is modelled explicitly where a
computation can overflow (`wrap64`).
-/

/-- A Go string, modelled as its list of characters. -/
abbrev GoStr := List Char

/-- Embed a Lean string literal as a `GoStr`. -/
def gs (s : String) : GoStr := s.toList

/-- The single-character pattern segment. From routes.go and
middleware/ratelimit.go, the wildcard segment is the literal string in
patternSeg comparisons. -/
def starSeg : GoStr := ['*']

/-- `strings.Split(s, "/")` from the Go standard library, specialised to the
separator used throughout routes.go and middleware/ratelimit.go: the list of
maximal slash-free chunks of the string. -/
def splitSlash : GoStr → List GoStr
  | [] => [[]]
  | c :: cs =>
    if c = '/' then [] :: splitSlash cs
    else
      match splitSlash cs with
      | [] => [[c]]
      | s :: ss => (c :: s) :: ss

/-- `strings.Join(l, "/")`: interleave the segments with slashes. -/
def joinSlash : List GoStr → GoStr
  | [] => []
  | [s] => s
  | s :: t :: rest => s ++ '/' :: joinSlash (t :: rest)

/-- Whether a path string is rooted (begins with a slash), as tested by
Go's `path.Clean`. -/
def isRooted : GoStr → Bool
  | [] => false
  | c :: _ => decide (c = '/')

/-- A segment survives `path.Clean`'s element scan when it is neither empty
nor the single dot. -/
def keepSeg (t : GoStr) : Bool := decide (t ≠ [] ∧ t ≠ ['.'])

/-- The dot-dot segment handled specially by `path.Clean`. -/
def dotDot : GoStr := ['.', '.']

/-- The stack pass of Go's `path.Clean` over the (already filtered) segment
list; `acc` is the stack with its top at the head. From the Plan 9 cleaning
algorithm used by Go's `path.Clean`. -/
def cleanSegsAux (rooted : Bool) : List GoStr → List GoStr → List GoStr
  | [], acc => acc.reverse
  | s :: rest, acc =>
    if s = dotDot then
      match acc with
      | [] => if rooted then cleanSegsAux rooted rest [] else cleanSegsAux rooted rest [dotDot]
      | t :: acc2 =>
        if t = dotDot then cleanSegsAux rooted rest (dotDot :: t :: acc2)
        else cleanSegsAux rooted rest acc2
    else cleanSegsAux rooted rest (s :: acc)

/-- Go's `path.Clean`: empty input becomes ".", duplicate slashes and "."
elements are dropped, ".." elements pop the previous element (and are
dropped at the root), and the result never has a trailing slash except for
the root itself. -/
def pathClean (s : GoStr) : GoStr :=
  if s = [] then ['.']
  else
    let r := isRooted s
    let segs := cleanSegsAux r ((splitSlash s).filter keepSeg) []
    if segs = [] then (if r then ['/'] else ['.'])
    else if r then '/' :: joinSlash segs else joinSlash segs

/-- `strings.Contains(s, "*")`. -/
def containsStar (s : GoStr) : Bool := decide ('*' ∈ s)

/-- The segment walk of `RouteMatcher.matchPattern` (routes.go lines 61-90),
run in lockstep over pattern and path segments: a wildcard that is the last
pattern segment accepts the remaining path, an interior wildcard skips one
path segment, literals must agree, and when the pattern is exhausted the
path must be exhausted too. -/
def goWalkRoutes : List GoStr → List GoStr → Bool
  | [], qs => decide (qs = [])
  | p :: ps, qs =>
    if p = starSeg then
      if ps = [] then true
      else goWalkRoutes ps qs.tail
    else
      match qs with
      | [] => false
      | q :: qs2 => if p = q then goWalkRoutes ps qs2 else false

/-- `RouteMatcher.matchPattern` from routes.go: raw exact equality first,
then (only for patterns containing `*`) a segment walk over the
`path.Clean`-ed pattern and path, guarded by the segment-count check of
line 56. -/
def routesMatchPattern (pattern requestPath : GoStr) : Bool :=
  if pattern = requestPath then true
  else if containsStar pattern then
    let ps := splitSlash (pathClean pattern)
    let qs := splitSlash (pathClean requestPath)
    if qs.length < ps.length then false
    else goWalkRoutes ps qs
  else false

/-- `RouteMatcher.IsPublic` from routes.go: does any configured public
pattern match the request path? -/
def isPublic (publicRoutes : List GoStr) (requestPath : GoStr) : Bool :=
  publicRoutes.any (fun p => routesMatchPattern p requestPath)

/-- The segment walk of `RateLimitMiddleware.matchPattern`
(middleware/ratelimit.go lines 161-173): ANY wildcard segment — terminal or
not — immediately accepts the rest of the path. -/
def goWalkMw : List GoStr → List GoStr → Bool
  | [], qs => decide (qs = [])
  | p :: ps, qs =>
    if p = starSeg then true
    else
      match qs with
      | [] => false
      | q :: qs2 => if p = q then goWalkMw ps qs2 else false

/-- `RateLimitMiddleware.matchPattern` from middleware/ratelimit.go: returns
false for patterns without `*` (exact matches are handled by the caller),
otherwise cleans both sides and walks segments with the length guard of
line 156. -/
def mwMatchPattern (pattern requestPath : GoStr) : Bool :=
  if containsStar pattern then
    let ps := splitSlash (pathClean pattern)
    let qs := splitSlash (pathClean requestPath)
    if qs.length < ps.length then false
    else goWalkMw ps qs
  else false

/-- Association-list lookup standing in for a Go map read. -/
def assocFind {α : Type} : List (GoStr × α) → GoStr → Option α
  | [], _ => none
  | (k, v) :: rest, key => if k = key then some v else assocFind rest key

/-- `RateLimitMiddleware.getLimiterForPath` from middleware/ratelimit.go:
clean the request path, try an exact lookup in the endpoint table, then the
first wildcard match (the Go map's iteration order is modelled by the list
order), and finally the default limiter. -/
def getLimiterForPath {α : Type} (limiters : List (GoStr × α)) (defaultL : Option α)
    (requestPath : GoStr) : Option α :=
  let p := pathClean requestPath
  match assocFind limiters p with
  | some l => some l
  | none =>
    match limiters.find? (fun e => mwMatchPattern e.1 p) with
    | some e => some e.2
    | none => defaultL

/-- The normalization named by the spec (§4.1 step 1): collapse duplicate
slashes and strip a trailing slash except at the root. Stated on segments:
keep the leading slash of a rooted path and rejoin the non-empty
segments. -/
def normalizePath (s : GoStr) : GoStr :=
  let segs := (splitSlash s).filter (fun t => decide (t ≠ []))
  if isRooted s then '/' :: joinSlash segs else joinSlash segs

/-- Modelled from the spec: the §4.1 segment walk, in which a terminal `*`
succeeds regardless of the remaining path segments, a non-terminal `*`
consumes exactly one path segment and continues, literals must be equal,
and a path that runs out before the pattern does not match. Used only to
compare the implemented matchers against the spec's matching semantics. -/
def specWalk41 : List GoStr → List GoStr → Bool
  | [], qs => decide (qs = [])
  | p :: ps, qs =>
    if p = starSeg then
      if ps = [] then true
      else
        match qs with
        | [] => false
        | _ :: qs2 => specWalk41 ps qs2
    else
      match qs with
      | [] => false
      | q :: qs2 => if p = q then specWalk41 ps qs2 else false

/-- Modelled from the spec: the full §4.1 matching semantics — normalizePath
both sides, match by exact equality when the pattern has no `*`, otherwise
walk segments per `specWalk41`. -/
def specMatch41 (pattern requestPath : GoStr) : Bool :=
  let p := normalizePath pattern
  let q := normalizePath requestPath
  if containsStar p then specWalk41 (splitSlash p) (splitSlash q)
  else decide (p = q)

example : routesMatchPattern (gs "/api/auth/*") (gs "/api/auth/otp/verify") = true := by decide
example : routesMatchPattern (gs "/api/auth/*/") (gs "/api/auth/login") = true := by decide
example : routesMatchPattern (gs "/api/auth/*") (gs "/api/user/profile") = false := by decide
example : routesMatchPattern (gs "/*") (gs "/anything/here") = true := by decide
example : routesMatchPattern (gs "/a/") (gs "/a") = false := by decide
example : routesMatchPattern (gs "/a") (gs "/a") = true := by decide
example : mwMatchPattern (gs "/a/*/b") (gs "/a/x/c") = true := by decide
example : specMatch41 (gs "/a/*/b") (gs "/a/x/c") = false := by decide
example : specMatch41 (gs "/a/") (gs "/a") = true := by decide
example : pathClean (gs "/a//b/") = gs "/a/b" := by decide
example : pathClean (gs "a/../../b") = gs "../b" := by decide
example : pathClean (gs "") = gs "." := by decide

/-! ## Rate limiter (services/api-gateway/ratelimit) -/

/-- `ratelimit.Config` from config.go: `Requests int`, `Window time.Duration`
(an `int64` count of nanoseconds), `BurstSize int`. -/
structure Config where
  requests : ℤ
  window : ℤ
  burstSize : ℤ
deriving DecidableEq

/-- `ratelimit.BackoffConfig` from config.go. Durations are nanosecond
counts, `Multiplier` is a Go `int`. -/
structure BackoffConfig where
  enabled : Bool
  baseDuration : ℤ
  maxDuration : ℤ
  multiplier : ℤ
deriving DecidableEq

/-- `ratelimit.Bucket` from store.go. `Tokens` is a `float64`, modelled as an
exact rational; the time fields are instants in nanoseconds, with Go's zero
`time.Time` modelled as `0` (all instants of interest are positive). -/
structure Bucket where
  tokens : ℚ
  lastRefill : ℤ
  violations : ℕ
  lastViolation : ℤ
  backoffUntil : ℤ
deriving DecidableEq

/-- `ratelimit.LimitMetrics` from config.go. -/
structure LimitMetrics where
  remaining : ℤ
  total : ℤ
  resetAt : ℤ
  violations : ℕ
deriving DecidableEq

/-- The bucket map of `ratelimit.Store` (store.go); the association list
models the Go map `buckets`. -/
abbrev Store := List (GoStr × Bucket)

/-- `math.Min` on the exact-rational model of `float64`. -/
def qmin (a b : ℚ) : ℚ := if a ≤ b then a else b

/-- Go's `float64` → `int64` conversion (used by `time.Duration(x)`):
truncation toward zero. -/
def truncQ (q : ℚ) : ℤ := if q < 0 then -⌊-q⌋ else ⌊q⌋

/-- Two's-complement wrap-around of a mathematical integer into a signed
64-bit value, as performed by Go `int64` multiplication. -/
def wrap64 (n : ℤ) : ℤ := (n + 2 ^ 63) % 2 ^ 64 - 2 ^ 63

/-- The fresh bucket constructed by `Store.Get` (store.go lines 46-49):
`Tokens = float64(config.Requests)`, `LastRefill = now`, everything else the
Go zero value. -/
def freshBucket (cfg : Config) (now : ℤ) : Bucket :=
  { tokens := (cfg.requests : ℚ), lastRefill := now,
    violations := 0, lastViolation := 0, backoffUntil := 0 }

/-- `Store.Get` (store.go lines 40-54): return the existing bucket, or create
and insert a fresh one. Returns the bucket together with the updated map. -/
def storeGet (st : Store) (key : GoStr) (cfg : Config) (now : ℤ) : Bucket × Store :=
  match assocFind st key with
  | some b => (b, st)
  | none => (freshBucket cfg now, st ++ [(key, freshBucket cfg now)])

/-- `Store.Set` (store.go lines 57-61): Go map assignment. -/
def storeSet (st : Store) (key : GoStr) (b : Bucket) : Store :=
  match st with
  | [] => [(key, b)]
  | (k, v) :: rest => if k = key then (key, b) :: rest else (k, v) :: storeSet rest key b

/-- `Store.Delete` (store.go lines 64-68). -/
def storeDelete (st : Store) (key : GoStr) : Store :=
  match st with
  | [] => []
  | (k, v) :: rest => if k = key then rest else (k, v) :: storeDelete rest key

/-- `TokenBucketLimiter.calculateBackoff` (limiter.go lines 86-102):
`base · multiplier^(violations−1)` computed in `float64` and converted to a
`time.Duration`, capped at `MaxDuration`. -/
def calculateBackoff (obk : Option BackoffConfig) (violations : ℕ) : ℤ :=
  match obk with
  | none => 0
  | some bk =>
    if bk.enabled = false ∨ violations = 0 then 0
    else
      let backoff := truncQ ((bk.baseDuration : ℚ) * (bk.multiplier : ℚ) ^ (violations - 1))
      if bk.maxDuration < backoff then bk.maxDuration else backoff

/-- Whether the backoff short-circuit of limiter.go line 42 fires:
`l.backoffConfig != nil && l.backoffConfig.Enabled && now.Before(bucket.BackoffUntil)`. -/
def backoffActive (obk : Option BackoffConfig) (b : Bucket) (now : ℤ) : Bool :=
  match obk with
  | none => false
  | some bk => bk.enabled && decide (now < b.backoffUntil)

/-- The result of one `Allow` call: the returned pair plus the store after
the call. -/
structure AllowOut where
  allowed : Bool
  retryAfter : ℤ
  store : Store
deriving DecidableEq

/-- The refill step of `Allow` (limiter.go lines 47-56):
`refillRate = float64(Requests)/float64(Window)` divides by the window in
NANOSECONDS, while `tokensToAdd = refillRate * elapsed.Seconds()` multiplies
by the elapsed time in SECONDS (`elapsed` is `now − LastRefill` in
nanoseconds, so `elapsed.Seconds()` is that count divided by 10⁹); the sum
is capped at `float64(Requests + BurstSize)`. -/
def refilledTokens (cfg : Config) (b : Bucket) (now : ℤ) : ℚ :=
  qmin (b.tokens + ((cfg.requests : ℚ) / (cfg.window : ℚ)) *
      (((now - b.lastRefill : ℤ) : ℚ) / 1000000000))
    ((cfg.requests + cfg.burstSize : ℤ) : ℚ)

/-- `TokenBucketLimiter.Allow` (limiter.go lines 34-83). Faithful points:
`refillRate = float64(Requests)/float64(Window)` divides by the window in
NANOSECONDS, while `tokensToAdd = refillRate * elapsed.Seconds()` multiplies
by the elapsed time in SECONDS; and the non-backoff retry computation
`time.Duration(tokensNeeded/refillRate) * time.Second` is an `int64` product,
modelled with explicit two's-complement wrap-around. -/
def allow (cfg : Config) (obk : Option BackoffConfig) (now : ℤ) (st : Store)
    (key : GoStr) : AllowOut :=
  let bucket := (storeGet st key cfg now).1
  let st1 := (storeGet st key cfg now).2
  if backoffActive obk bucket now then
    { allowed := false, retryAfter := bucket.backoffUntil - now, store := st1 }
  else
    let tokens1 := refilledTokens cfg bucket now
    let b1 := { bucket with tokens := tokens1, lastRefill := now }
    if 1 ≤ tokens1 then
      { allowed := true, retryAfter := 0,
        store := storeSet st1 key { b1 with tokens := tokens1 - 1 } }
    else
      let b2 := { b1 with violations := bucket.violations + 1, lastViolation := now }
      if (match obk with | none => false | some bk => bk.enabled) then
        let backoff := calculateBackoff obk b2.violations
        { allowed := false, retryAfter := backoff,
          store := storeSet st1 key { b2 with backoffUntil := now + backoff } }
      else
        let tokensNeeded : ℚ := 1 - tokens1
        let retryAfter := wrap64 (truncQ (tokensNeeded /
          ((cfg.requests : ℚ) / (cfg.window : ℚ))) * 1000000000)
        { allowed := false, retryAfter := retryAfter, store := storeSet st1 key b2 }

/-- `TokenBucketLimiter.GetMetrics` (limiter.go lines 112-127). Note that it
reaches the store through `Store.Get`, which inserts a fresh bucket for an
unknown key. -/
def getMetrics (cfg : Config) (now : ℤ) (st : Store) (key : GoStr) :
    LimitMetrics × Store :=
  let bucket := (storeGet st key cfg now).1
  ({ remaining := ⌊bucket.tokens⌋, total := cfg.requests,
     resetAt := bucket.lastRefill + cfg.window, violations := bucket.violations },
   (storeGet st key cfg now).2)

/-- `TokenBucketLimiter.Reset` (limiter.go lines 105-109). -/
def reset (st : Store) (key : GoStr) : Store := storeDelete st key

/-- Run a sequence of `Allow` calls at the given instants against one key,
collecting the returned `(allowed, retryAfter)` pairs. -/
def runAllows (cfg : Config) (obk : Option BackoffConfig) (key : GoStr) :
    List ℤ → Store → List (Bool × ℤ) × Store
  | [], st => ([], st)
  | t :: ts, st =>
    let r := allow cfg obk t st key
    let (rs, st2) := runAllows cfg obk key ts r.store
    ((r.allowed, r.retryAfter) :: rs, st2)

example :
    (runAllows ⟨5, 60000000000, 0⟩ none (gs "ip:/p") [0, 0, 0, 0, 0, 0] []).1.map Prod.fst
      = [true, true, true, true, true, false] := by
  norm_num [runAllows, allow, refilledTokens, storeGet, assocFind, freshBucket,
    backoffActive, qmin, storeSet, gs, truncQ, wrap64]
example :
    ((runAllows ⟨5, 60000000000, 0⟩ none (gs "ip:/p") [0, 0, 0, 0, 0, 0] []).1.map
      Prod.snd).getLast? = some (-6446744073709551616) := by
  norm_num [runAllows, allow, refilledTokens, storeGet, assocFind, freshBucket,
    backoffActive, qmin, storeSet, gs, truncQ, wrap64]

/-! ## Token validator (services/api-gateway/validator, jwt_validator.go) -/

/-- `validator.Claims`: the claims handed to the middleware on success. -/
structure Claims where
  userId : GoStr
  mobile : GoStr
  expiresAt : ℤ
deriving DecidableEq

/-- The closed error set of the validator contract: `ErrInvalidToken`,
`ErrExpiredToken`, `ErrInvalidClaims` from jwt_validator.go (a wrapped
`ErrInvalidToken` is also `invalidToken`). -/
inductive VError
  | invalidToken
  | expiredToken
  | invalidClaims
deriving DecidableEq

/-- The `JWTClaims` structure of jwt_validator.go after a successful parse:
`UserID string`, `Mobile string`, and the embedded registered claim
`ExpiresAt *jwt.NumericDate`, a nullable pointer modelled as `Option`. -/
structure GoJWTClaims where
  userId : GoStr
  mobile : GoStr
  expiresAt : Option ℤ
deriving DecidableEq

/-- The outcome of `jwt.ParseWithClaims` plus signature verification,
abstracted: either a parse/verification error (tagged with whether the
library classified it as `jwt.ErrTokenExpired`), or a verified claims
struct. With golang-jwt v5 defaults a payload without `exp` parses and
verifies successfully. -/
inductive ParseOutcome
  | parseErr (isTokenExpired : Bool)
  | parsed (c : GoJWTClaims)
deriving DecidableEq

/-- What `JWTValidator.Validate` does, observably: return claims, return one
of the three validator errors, or crash with a nil-pointer dereference
(a Go runtime panic). -/
inductive VOutcome
  | ok (c : Claims)
  | err (e : VError)
  | nilDeref
deriving DecidableEq

/-- `JWTValidator.Validate` (jwt_validator.go lines 70-123) given the parse
outcome. After a successful parse: an empty `UserID` yields
`ErrInvalidClaims`; an `ExpiresAt` in the past yields `ErrExpiredToken`
(the nil check guards only this comparison); and the final construction of
the returned `Claims` reads `claims.ExpiresAt.Time` UNCONDITIONALLY, which
dereferences a nil pointer when the payload has no `exp` claim. -/
def jwtValidate (now : ℤ) (p : ParseOutcome) : VOutcome :=
  match p with
  | .parseErr true => .err .expiredToken
  | .parseErr false => .err .invalidToken
  | .parsed c =>
    if c.userId = [] then .err .invalidClaims
    else
      match c.expiresAt with
      | some exp =>
        if exp < now then .err .expiredToken
        else .ok { userId := c.userId, mobile := c.mobile, expiresAt := exp }
      | none => .nilDeref

/-! ## Auth middleware (services/api-gateway/middleware/auth.go) -/

/-- The observable outcome of `AuthMiddleware.Middleware` for one request. -/
inductive AuthDecision
  | passNoAuth
  | passAuthed (c : Claims)
  | reject (msg : GoStr)
  | panicked
deriving DecidableEq

/-- The middleware outcome together with whether `m.validator.Validate` was
invoked on the way. -/
structure AuthResult where
  decision : AuthDecision
  validatorCalled : Bool
deriving DecidableEq

/-- `strings.SplitN(s, " ", 2)`: the part before the first space, and the
part after it when a space exists. -/
def splitN2 : GoStr → GoStr × Option GoStr
  | [] => ([], none)
  | c :: cs =>
    if c = ' ' then ([], some cs)
    else
      let r := splitN2 cs
      (c :: r.1, r.2)

/-- `AuthMiddleware.extractBearerToken` (auth.go lines 105-117): split on
the first space, lower-case the scheme, require "bearer"; any failure
yields the empty token. (`strings.ToLower` is modelled on ASCII, which is
all the comparison against "bearer" can distinguish.) -/
def extractBearerToken (authHeader : GoStr) : GoStr :=
  match splitN2 authHeader with
  | (_, none) => []
  | (scheme, some rest) =>
    if scheme.map Char.toLower = gs "bearer" then rest else []

/-- `AuthMiddleware.Middleware` (auth.go lines 40-102). `authHeader` is
`r.Header.Get("Authorization")` (the empty string when absent);
`validate` is the configured validator. -/
def authMiddleware (enabled : Bool) (publicRoutes : List GoStr) (path : GoStr)
    (authHeader : GoStr) (validate : GoStr → VOutcome) : AuthResult :=
  if enabled = false then { decision := .passNoAuth, validatorCalled := false }
  else if isPublic publicRoutes path then { decision := .passNoAuth, validatorCalled := false }
  else if authHeader = [] then
    { decision := .reject (gs "missing authorization header"), validatorCalled := false }
  else
    let token := extractBearerToken authHeader
    if token = [] then
      { decision := .reject (gs "invalid authorization header format"), validatorCalled := false }
    else
      match validate token with
      | .err .expiredToken => { decision := .reject (gs "token has expired"), validatorCalled := true }
      | .err .invalidClaims => { decision := .reject (gs "invalid token claims"), validatorCalled := true }
      | .err .invalidToken => { decision := .reject (gs "invalid token"), validatorCalled := true }
      | .nilDeref => { decision := .panicked, validatorCalled := true }
      | .ok c => { decision := .passAuthed c, validatorCalled := true }

/-! ## Docs reverse proxy (docs_proxy.go) -/

/-- The observable outcome of `DocsProxy.handleSwaggerJSON`: forward to the
service's reverse proxy with the rewritten request path, or answer 404
without forwarding. -/
inductive DocsOutcome
  | forward (baseURL : GoStr) (rewrittenPath : GoStr)
  | notFound
deriving DecidableEq

/-- `DocsProxy.handleSwaggerJSON` (docs_proxy.go lines 121-143): look up the
`{service}` mux variable in the configured services; unknown service → 404;
otherwise rewrite `r.URL.Path` to `/docs/{service}.swagger.json` and forward
to that service's reverse proxy. -/
def handleSwaggerJSON (services : List (GoStr × GoStr)) (serviceName : GoStr) : DocsOutcome :=
  match assocFind services serviceName with
  | none => .notFound
  | some base => .forward base (gs "/docs/" ++ serviceName ++ gs ".swagger.json")

/-- Strip an expected leading prefix-run of characters, if present. -/
def dropLead : GoStr → GoStr → Option GoStr
  | [], s => some s
  | _ :: _, [] => none
  | c :: cs, d :: ds => if c = d then dropLead cs ds else none

/-- Strip an expected trailing run of characters, if present. -/
def dropTrail (suffixChars s : GoStr) : Option GoStr :=
  (dropLead suffixChars.reverse s.reverse).map List.reverse

/-- The gorilla/mux route `/docs/{service}/swagger.json` (docs_proxy.go line
84): a request path matches when it is literally `/docs/`, then one or more
non-slash characters bound to the `service` variable, then
`/swagger.json`. -/
def muxSwaggerVar (p : GoStr) : Option GoStr :=
  match dropLead (gs "/docs/") p with
  | none => none
  | some rest =>
    match dropTrail (gs "/swagger.json") rest with
    | none => none
    | some svc => if svc ≠ [] ∧ '/' ∉ svc then some svc else none

example : muxSwaggerVar (gs "/docs/auth/swagger.json") = some (gs "auth") := by decide
example : handleSwaggerJSON [(gs "auth", gs "http://upstream")] (gs "auth")
    = .forward (gs "http://upstream") (gs "/docs/auth.swagger.json") := by decide
example : handleSwaggerJSON [(gs "auth", gs "http://upstream")] (gs "user") = .notFound := by decide
example : jwtValidate 1000 (.parsed { userId := gs "u", mobile := [], expiresAt := none })
    = .nilDeref := by decide

/-! ## Store lemmas -/

theorem assocFind_append_self {α : Type} (st : List (GoStr × α)) (key : GoStr) (v : α)
    (h : assocFind st key = none) : assocFind (st ++ [(key, v)]) key = some v := by
  induction st with
  | nil => simp [assocFind]
  | cons e rest ih =>
    obtain ⟨k, w⟩ := e
    simp only [assocFind, List.cons_append] at h ⊢
    by_cases hk : k = key
    · simp [hk] at h
    · simp only [hk, if_false] at h ⊢
      exact ih h

theorem assocFind_storeSet_self (st : Store) (key : GoStr) (b : Bucket) :
    assocFind (storeSet st key b) key = some b := by
  induction st with
  | nil => simp [storeSet, assocFind]
  | cons e rest ih =>
    obtain ⟨k, w⟩ := e
    by_cases hk : k = key
    · simp [storeSet, hk, assocFind]
    · simp [storeSet, hk, assocFind, ih]

/-! ## Claim C1 -/

/-- Claim C1: the claim states that a token that parses and verifies but
lacks the `exp` claim makes `Validate` return `InvalidClaims` without
panicking. The code instead skips the nil-guarded expiry check and then
dereferences `claims.ExpiresAt.Time` on the nil pointer, a Go runtime
panic; evaluated here at the failing input. -/
theorem C1_missing_exp_dereferences_nil :
    jwtValidate 1700000000000000000
        (.parsed { userId := gs "user123", mobile := gs "09121234567", expiresAt := none })
      = .nilDeref ∧
    jwtValidate 1700000000000000000
        (.parsed { userId := gs "user123", mobile := gs "09121234567", expiresAt := none })
      ≠ .err .invalidClaims := by
  decide

/-! ## Claim C2 -/

/-- Modelled from the claim (C2): the spec's refill formula
`min(tokens + (requests/window)·elapsed, requests+burst)` with
`requests/window` a rate per time unit and `elapsed` measured in the same
time unit (here: nanoseconds). Used only to compare against the code. -/
def claimRefillTokens (cfg : Config) (tokens : ℚ) (elapsed : ℤ) : ℚ :=
  qmin (tokens + ((cfg.requests : ℚ) / (cfg.window : ℚ)) * (elapsed : ℚ))
    ((cfg.requests + cfg.burstSize : ℤ) : ℚ)

/-- Claim C2, counterexample: with requests=20, window=1s and a bucket that
is empty with one full second elapsed, the claim's formula refills to 20
tokens, but the code's bucket ends with 1/50000000 of a token (the code
divides by the window in nanoseconds yet multiplies by elapsed seconds), so
the claimed refill equation is false. -/
theorem C2_refill_counterexample :
    (assocFind (allow ⟨20, 1000000000, 0⟩ none 1000000000
        [(gs "k", { tokens := 0, lastRefill := 0, violations := 0, lastViolation := 0,
                    backoffUntil := 0 })] (gs "k")).store (gs "k")).map Bucket.tokens
      = some (1 / 50000000) ∧
    claimRefillTokens ⟨20, 1000000000, 0⟩ 0 1000000000 = 20 ∧
    ((1 : ℚ) / 50000000) ≠ 20 := by
  refine ⟨?_, ?_, by norm_num⟩
  · norm_num [allow, refilledTokens, storeGet, assocFind, freshBucket, backoffActive, qmin,
      storeSet, gs, truncQ, wrap64]
  · norm_num [claimRefillTokens, qmin]

/-- Claim C2, amended: every `Allow` call that is not short-circuited by an
active backoff window stores a bucket with `last_refill = now` and with
tokens computed from `min(tokens + (requests/window_ns)·(elapsed_ns/10⁹),
requests+burst)` — the refill rate is per NANOSECOND of window but is
multiplied by the elapsed time in SECONDS, i.e. refill runs 10⁹ times
slower than the claimed `requests/window` per time unit — minus one token
when the request is admitted. -/
theorem C2_refill_amended (cfg : Config) (obk : Option BackoffConfig) (now : ℤ)
    (st : Store) (key : GoStr)
    (h : backoffActive obk (storeGet st key cfg now).1 now = false) :
    ∃ b2, assocFind (allow cfg obk now st key).store key = some b2 ∧
      b2.lastRefill = now ∧
      b2.tokens =
        (if 1 ≤ refilledTokens cfg (storeGet st key cfg now).1 now
         then refilledTokens cfg (storeGet st key cfg now).1 now - 1
         else refilledTokens cfg (storeGet st key cfg now).1 now) := by
  have hset := fun bb => assocFind_storeSet_self (storeGet st key cfg now).2 key bb
  have hcond : ¬ (backoffActive obk (storeGet st key cfg now).1 now = true) := by
    simp [h]
  by_cases hadm : 1 ≤ refilledTokens cfg (storeGet st key cfg now).1 now
  · refine ⟨{ (storeGet st key cfg now).1 with
        tokens := refilledTokens cfg (storeGet st key cfg now).1 now - 1,
        lastRefill := now }, ?_, rfl, by rw [if_pos hadm]⟩
    show assocFind (allow cfg obk now st key).store key = _
    simp only [allow]
    rw [if_neg hcond, if_pos hadm]
    exact hset _
  · cases obk with
    | none =>
      refine ⟨{ (storeGet st key cfg now).1 with
          tokens := refilledTokens cfg (storeGet st key cfg now).1 now,
          lastRefill := now,
          violations := (storeGet st key cfg now).1.violations + 1,
          lastViolation := now }, ?_, rfl, by rw [if_neg hadm]⟩
      show assocFind (allow cfg none now st key).store key = _
      simp only [allow, Bool.false_eq_true, if_false]
      rw [if_neg hcond, if_neg hadm]
      exact hset _
    | some bk =>
      by_cases hbk : bk.enabled = true
      · refine ⟨{ (storeGet st key cfg now).1 with
            tokens := refilledTokens cfg (storeGet st key cfg now).1 now,
            lastRefill := now,
            violations := (storeGet st key cfg now).1.violations + 1,
            lastViolation := now,
            backoffUntil := now + calculateBackoff (some bk)
              ((storeGet st key cfg now).1.violations + 1) }, ?_, rfl, by rw [if_neg hadm]⟩
        show assocFind (allow cfg (some bk) now st key).store key = _
        simp only [allow]
        rw [if_neg hcond, if_neg hadm, if_pos hbk]
        exact hset _
      · refine ⟨{ (storeGet st key cfg now).1 with
            tokens := refilledTokens cfg (storeGet st key cfg now).1 now,
            lastRefill := now,
            violations := (storeGet st key cfg now).1.violations + 1,
            lastViolation := now }, ?_, rfl, by rw [if_neg hadm]⟩
        show assocFind (allow cfg (some bk) now st key).store key = _
        simp only [allow]
        rw [if_neg hcond, if_neg hadm, if_neg hbk]
        exact hset _

/-- Witness for `C2_refill_amended` at a concrete input: the first call on a
fresh key with requests=5 refills to 5 and admits, leaving 4 tokens. -/
theorem C2_refill_amended_witness :
    ∃ b2, assocFind (allow ⟨5, 60000000000, 0⟩ none 0 [] (gs "k")).store (gs "k") = some b2 ∧
      b2.lastRefill = 0 ∧
      b2.tokens =
        (if 1 ≤ refilledTokens ⟨5, 60000000000, 0⟩ (storeGet [] (gs "k") ⟨5, 60000000000, 0⟩ 0).1 0
         then refilledTokens ⟨5, 60000000000, 0⟩ (storeGet [] (gs "k") ⟨5, 60000000000, 0⟩ 0).1 0 - 1
         else refilledTokens ⟨5, 60000000000, 0⟩ (storeGet [] (gs "k") ⟨5, 60000000000, 0⟩ 0).1 0) :=
  C2_refill_amended ⟨5, 60000000000, 0⟩ none 0 [] (gs "k") (by rfl)

/-! ## Claim C3 -/

/-- Claim C3: with policy requests=5, window=60s, burst=0, backoff disabled,
six Allow calls on one key at the same instant admit the first five and
deny the sixth — but the denial's retryAfter is the int64-overflowed
product `time.Duration(12·10⁹) * time.Second`, i.e. −6446744073709551616 ns
(≈ −6.4·10⁹ seconds), not the ≈12 s the claim states; evaluated at the
failing input. -/
theorem C3_sixth_call_retry_after_overflows :
    (runAllows ⟨5, 60000000000, 0⟩ none (gs "ip:/p") [0, 0, 0, 0, 0, 0] []).1.map Prod.fst
      = [true, true, true, true, true, false] ∧
    ((runAllows ⟨5, 60000000000, 0⟩ none (gs "ip:/p") [0, 0, 0, 0, 0, 0] []).1.map
      Prod.snd).getLast? = some (-6446744073709551616) := by
  constructor
  · norm_num [runAllows, allow, refilledTokens, storeGet, assocFind, freshBucket,
      backoffActive, qmin, storeSet, gs, truncQ, wrap64]
  · norm_num [runAllows, allow, refilledTokens, storeGet, assocFind, freshBucket,
      backoffActive, qmin, storeSet, gs, truncQ, wrap64]

/-! ## Claim C9 -/

theorem dropLead_append (a b : GoStr) : dropLead a (a ++ b) = some b := by
  induction a with
  | nil => rfl
  | cons c cs ih => simp [dropLead, ih]

/-- Claim C9: a request `GET /docs/{service}/swagger.json` for a configured
docs service is forwarded with the path rewritten to
`/docs/{service}.swagger.json`; an unknown service yields 404 and no
forwarding. The mux route binds `{service}` to the non-empty slash-free
middle of the path. -/
theorem C9_docs_swagger_json (services : List (GoStr × GoStr)) (svc : GoStr)
    (hne : svc ≠ []) (hns : '/' ∉ svc) :
    muxSwaggerVar (gs "/docs/" ++ svc ++ gs "/swagger.json") = some svc ∧
    (∀ base, assocFind services svc = some base →
      handleSwaggerJSON services svc
        = .forward base (gs "/docs/" ++ svc ++ gs ".swagger.json")) ∧
    (assocFind services svc = none → handleSwaggerJSON services svc = .notFound) := by
  refine ⟨?_, ?_, ?_⟩
  · have h1 : dropLead (gs "/docs/") (gs "/docs/" ++ svc ++ gs "/swagger.json")
        = some (svc ++ gs "/swagger.json") := by
      rw [List.append_assoc]
      exact dropLead_append (gs "/docs/") _
    have h2 : dropTrail (gs "/swagger.json") (svc ++ gs "/swagger.json") = some svc := by
      unfold dropTrail
      rw [List.reverse_append, dropLead_append]
      simp
    simp only [muxSwaggerVar, h1, h2]
    simp [hne, hns]
  · intro base hbase
    simp [handleSwaggerJSON, hbase]
  · intro hnone
    simp [handleSwaggerJSON, hnone]

/-- Witness for `C9_docs_swagger_json` with service "auth" configured at
http://upstream, matching scenario S8. -/
theorem C9_docs_swagger_json_witness :
    muxSwaggerVar (gs "/docs/" ++ gs "auth" ++ gs "/swagger.json") = some (gs "auth") ∧
    (∀ base, assocFind [(gs "auth", gs "http://upstream")] (gs "auth") = some base →
      handleSwaggerJSON [(gs "auth", gs "http://upstream")] (gs "auth")
        = .forward base (gs "/docs/" ++ gs "auth" ++ gs ".swagger.json")) ∧
    (assocFind [(gs "auth", gs "http://upstream")] (gs "auth") = none →
      handleSwaggerJSON [(gs "auth", gs "http://upstream")] (gs "auth") = .notFound) :=
  C9_docs_swagger_json [(gs "auth", gs "http://upstream")] (gs "auth") (by decide) (by decide)

/-! ## Claim C10 -/

/-- Claim C10: `GetMetrics` is not read-only — for an unknown key it inserts
a fresh bucket (tokens = requests, last_refill = now) as a side effect,
growing the store by one entry, and reports Remaining = requests and
Violations = 0; for a known key it leaves the store unchanged. -/
theorem C10_getMetrics_side_effect (cfg : Config) (now : ℤ) (st : Store) (key : GoStr) :
    (assocFind st key = none →
      (getMetrics cfg now st key).2 = st ++ [(key, freshBucket cfg now)] ∧
      ((getMetrics cfg now st key).2).length = st.length + 1 ∧
      assocFind (getMetrics cfg now st key).2 key = some (freshBucket cfg now) ∧
      (getMetrics cfg now st key).1.remaining = cfg.requests ∧
      (getMetrics cfg now st key).1.violations = 0) ∧
    (∀ b, assocFind st key = some b →
      (getMetrics cfg now st key).2 = st ∧
      (getMetrics cfg now st key).1
        = ⟨⌊b.tokens⌋, cfg.requests, b.lastRefill + cfg.window, b.violations⟩) := by
  constructor
  · intro hnone
    have hst : (getMetrics cfg now st key).2 = st ++ [(key, freshBucket cfg now)] := by
      simp [getMetrics, storeGet, hnone]
    refine ⟨hst, ?_, ?_, ?_, ?_⟩
    · rw [hst]; simp
    · rw [hst]; exact assocFind_append_self st key _ hnone
    · simp [getMetrics, storeGet, hnone, freshBucket]
    · simp [getMetrics, storeGet, hnone, freshBucket]
  · intro b hb
    constructor
    · simp [getMetrics, storeGet, hb]
    · simp [getMetrics, storeGet, hb]

/-- Witness for `C10_getMetrics_side_effect`: on the empty store, a
GetMetrics call for a fresh key inserts the bucket and reports
remaining = 5, violations = 0. -/
theorem C10_getMetrics_side_effect_witness :
    (getMetrics ⟨5, 60000000000, 0⟩ 7 [] (gs "k")).2
      = [] ++ [(gs "k", freshBucket ⟨5, 60000000000, 0⟩ 7)] ∧
    ((getMetrics ⟨5, 60000000000, 0⟩ 7 [] (gs "k")).2).length = List.length ([] : Store) + 1 ∧
    assocFind (getMetrics ⟨5, 60000000000, 0⟩ 7 [] (gs "k")).2 (gs "k")
      = some (freshBucket ⟨5, 60000000000, 0⟩ 7) ∧
    (getMetrics ⟨5, 60000000000, 0⟩ 7 [] (gs "k")).1.remaining = 5 ∧
    (getMetrics ⟨5, 60000000000, 0⟩ 7 [] (gs "k")).1.violations = 0 :=
  (C10_getMetrics_side_effect ⟨5, 60000000000, 0⟩ 7 [] (gs "k")).1 rfl

/-! ## Claim C4 -/

/-- The S5 scenario policy: requests=1, window=1s, burst=0. -/
def s5cfg : Config := ⟨1, 1000000000, 0⟩

/-- The S5 scenario backoff: enabled, base=2s, max=10s, multiplier=2. -/
def s5bk : BackoffConfig := ⟨true, 2000000000, 10000000000, 2⟩

/-- Three consecutive `Allow` calls on one key at instants t0 ≤ t1 ≤ t2
under the S5 policy, starting from an empty store. -/
def s5run (t0 t1 t2 : ℤ) (k : GoStr) : AllowOut × AllowOut × AllowOut :=
  let r1 := allow s5cfg (some s5bk) t0 [] k
  let r2 := allow s5cfg (some s5bk) t1 r1.store k
  let r3 := allow s5cfg (some s5bk) t2 r2.store k
  (r1, r2, r3)

/-- Claim C4, counterexample: in the S5 scenario with all three calls at
instant 0, after the third (denied) call the bucket's backoff_until is
2000000000 ns — the value set by the SECOND call — and not 4 s from the
third denial instant (0 + 4000000000) as the claim states: the backoff
short-circuit returns without mutating the bucket. -/
theorem C4_third_denial_counterexample :
    (runAllows s5cfg (some s5bk) (gs "k") [0, 0, 0] []).1.map Prod.fst
      = [true, false, false] ∧
    (assocFind (runAllows s5cfg (some s5bk) (gs "k") [0, 0, 0] []).2 (gs "k")).map
      Bucket.backoffUntil = some 2000000000 ∧
    (assocFind (runAllows s5cfg (some s5bk) (gs "k") [0, 0, 0] []).2 (gs "k")).map
      Bucket.backoffUntil ≠ some (0 + 4000000000) := by
  refine ⟨?_, ?_, ?_⟩ <;>
    norm_num [runAllows, allow, refilledTokens, storeGet, assocFind, freshBucket,
      backoffActive, qmin, storeSet, gs, truncQ, wrap64, calculateBackoff, s5cfg, s5bk]

/-- Claim C4, amended: under the S5 policy, with the three calls issued
immediately (t0 ≤ t1 ≤ t2, t1 − t0 below one window-refill of 10¹⁸ ns, and
t2 still inside the 2 s backoff window opened by the second call), the
first call is admitted; the second is denied with retry_after = 2 s; the
third is denied with retry_after = (t1 + 2s) − t2, which is at most the
remainder of the 2 s window — but the third denial does NOT touch the
bucket: backoff_until remains t1 + 2 s (not 4 s from the third denial) and
violations remains 1, because an Allow call inside an active backoff window
returns before any mutation. -/
theorem C4_backoff_amended (t0 t1 t2 : ℤ) (k : GoStr)
    (h0 : 0 ≤ t0) (h01 : t0 ≤ t1) (h12 : t1 ≤ t2)
    (hfast : t1 - t0 < 1000000000000000000)
    (hwin : t2 < t1 + 2000000000) :
    (s5run t0 t1 t2 k).1.allowed = true ∧
    (s5run t0 t1 t2 k).2.1.allowed = false ∧
    (s5run t0 t1 t2 k).2.1.retryAfter = 2000000000 ∧
    (s5run t0 t1 t2 k).2.2.allowed = false ∧
    (s5run t0 t1 t2 k).2.2.retryAfter = (t1 + 2000000000) - t2 ∧
    (s5run t0 t1 t2 k).2.2.retryAfter ≤ 2000000000 ∧
    (assocFind (s5run t0 t1 t2 k).2.2.store k).map Bucket.backoffUntil
      = some (t1 + 2000000000) ∧
    (assocFind (s5run t0 t1 t2 k).2.2.store k).map Bucket.violations = some 1 := by
  have hget1 : storeGet [] k s5cfg t0 = (freshBucket s5cfg t0, [(k, freshBucket s5cfg t0)]) := by
    simp [storeGet, assocFind]
  have hba1 : backoffActive (some s5bk) (freshBucket s5cfg t0) t0 = false := by
    simp only [backoffActive, freshBucket, s5bk, Bool.true_and, decide_eq_false_iff_not]
    omega
  have hrf1 : refilledTokens s5cfg (freshBucket s5cfg t0) t0 = 1 := by
    norm_num [refilledTokens, freshBucket, s5cfg, qmin]
  have e1 : allow s5cfg (some s5bk) t0 [] k
      = { allowed := true, retryAfter := 0,
          store := [(k, ⟨0, t0, 0, 0, 0⟩)] } := by
    simp only [allow, hget1, hba1, Bool.false_eq_true, if_false, hrf1]
    norm_num [storeSet, freshBucket, s5cfg]
  have hget2 : storeGet [(k, (⟨0, t0, 0, 0, 0⟩ : Bucket))] k s5cfg t1
      = (⟨0, t0, 0, 0, 0⟩, [(k, ⟨0, t0, 0, 0, 0⟩)]) := by
    simp [storeGet, assocFind]
  have hba2 : backoffActive (some s5bk) (⟨0, t0, 0, 0, 0⟩ : Bucket) t1 = false := by
    simp only [backoffActive, s5bk, Bool.true_and, decide_eq_false_iff_not]
    omega
  have hkey2 : (0 : ℚ) + ((s5cfg.requests : ℚ) / (s5cfg.window : ℚ)) *
      (((t1 - t0 : ℤ) : ℚ) / 1000000000)
      = ((t1 - t0 : ℤ) : ℚ) / 1000000000000000000 := by
    norm_num [s5cfg]
    ring
  have hlt2 : ((t1 - t0 : ℤ) : ℚ) / 1000000000000000000 < 1 := by
    rw [div_lt_one (by norm_num)]
    exact_mod_cast hfast
  have hrf2 : refilledTokens s5cfg (⟨0, t0, 0, 0, 0⟩ : Bucket) t1
      = ((t1 - t0 : ℤ) : ℚ) / 1000000000000000000 := by
    unfold refilledTokens qmin
    rw [show ((⟨0, t0, 0, 0, 0⟩ : Bucket)).tokens = (0 : ℚ) from rfl,
      show ((⟨0, t0, 0, 0, 0⟩ : Bucket)).lastRefill = t0 from rfl, hkey2]
    rw [if_pos]
    norm_num [s5cfg]
    push_cast at hlt2
    exact hlt2.le
  have hadm2 : ¬ (1 : ℚ) ≤ refilledTokens s5cfg (⟨0, t0, 0, 0, 0⟩ : Bucket) t1 := by
    rw [hrf2]
    exact not_le.mpr hlt2
  have hbo2 : calculateBackoff (some s5bk) (0 + 1) = 2000000000 := by
    norm_num [calculateBackoff, s5bk, truncQ]
  have e2 : allow s5cfg (some s5bk) t1 [(k, (⟨0, t0, 0, 0, 0⟩ : Bucket))] k
      = { allowed := false, retryAfter := 2000000000,
          store := [(k, ⟨((t1 - t0 : ℤ) : ℚ) / 1000000000000000000, t1, 1, t1,
                         t1 + 2000000000⟩)] } := by
    simp only [allow, hget2, hba2, Bool.false_eq_true, if_false, hrf2]
    rw [if_neg (not_le.mpr hlt2)]
    simp only [show s5bk.enabled = true from rfl, if_true]
    rw [hbo2]
    simp [storeSet]
  have hget3 : storeGet [(k, (⟨((t1 - t0 : ℤ) : ℚ) / 1000000000000000000, t1, 1, t1,
        t1 + 2000000000⟩ : Bucket))] k s5cfg t2
      = (⟨((t1 - t0 : ℤ) : ℚ) / 1000000000000000000, t1, 1, t1, t1 + 2000000000⟩,
         [(k, ⟨((t1 - t0 : ℤ) : ℚ) / 1000000000000000000, t1, 1, t1, t1 + 2000000000⟩)]) := by
    simp [storeGet, assocFind]
  have hba3 : backoffActive (some s5bk)
      (⟨((t1 - t0 : ℤ) : ℚ) / 1000000000000000000, t1, 1, t1, t1 + 2000000000⟩ : Bucket) t2
      = true := by
    simp only [backoffActive, s5bk, Bool.true_and, decide_eq_true_eq]
    exact hwin
  have e3 : allow s5cfg (some s5bk) t2
      [(k, (⟨((t1 - t0 : ℤ) : ℚ) / 1000000000000000000, t1, 1, t1,
            t1 + 2000000000⟩ : Bucket))] k
      = { allowed := false, retryAfter := (t1 + 2000000000) - t2,
          store := [(k, ⟨((t1 - t0 : ℤ) : ℚ) / 1000000000000000000, t1, 1, t1,
                         t1 + 2000000000⟩)] } := by
    simp only [allow, hget3, hba3, if_true]
  have hrun : s5run t0 t1 t2 k
      = ({ allowed := true, retryAfter := 0, store := [(k, ⟨0, t0, 0, 0, 0⟩)] },
         { allowed := false, retryAfter := 2000000000,
           store := [(k, ⟨((t1 - t0 : ℤ) : ℚ) / 1000000000000000000, t1, 1, t1,
                          t1 + 2000000000⟩)] },
         { allowed := false, retryAfter := (t1 + 2000000000) - t2,
           store := [(k, ⟨((t1 - t0 : ℤ) : ℚ) / 1000000000000000000, t1, 1, t1,
                          t1 + 2000000000⟩)] }) := by
    simp only [s5run, e1]
    simp only [e2]
    simp only [e3]
  rw [hrun]
  refine ⟨rfl, rfl, rfl, rfl, rfl, ?_, ?_, ?_⟩
  · show (t1 + 2000000000) - t2 ≤ 2000000000
    omega
  · simp [assocFind]
  · simp [assocFind]

/-- Witness for `C4_backoff_amended`: all three calls at instant 0. -/
theorem C4_backoff_amended_witness :
    (s5run 0 0 0 (gs "k")).1.allowed = true ∧
    (s5run 0 0 0 (gs "k")).2.1.allowed = false ∧
    (s5run 0 0 0 (gs "k")).2.1.retryAfter = 2000000000 ∧
    (s5run 0 0 0 (gs "k")).2.2.allowed = false ∧
    (s5run 0 0 0 (gs "k")).2.2.retryAfter = (0 + 2000000000) - 0 ∧
    (s5run 0 0 0 (gs "k")).2.2.retryAfter ≤ 2000000000 ∧
    (assocFind (s5run 0 0 0 (gs "k")).2.2.store (gs "k")).map Bucket.backoffUntil
      = some (0 + 2000000000) ∧
    (assocFind (s5run 0 0 0 (gs "k")).2.2.store (gs "k")).map Bucket.violations = some 1 :=
  C4_backoff_amended 0 0 0 (gs "k") (by norm_num) (by norm_num) (by norm_num)
    (by norm_num) (by norm_num)

/-! ## Claim C7 -/

/-- Claim C7, counterexample: the path "/a" matches the public pattern
"/a/" under the spec's §4.1 semantics (normalize both sides, then exact
equality), yet the implemented matcher compares the raw strings and only
normalizes for patterns containing `*`, so the route is not recognized as
public and the middleware DOES invoke the validator. -/
theorem C7_public_bypass_counterexample :
    specMatch41 (gs "/a/") (gs "/a") = true ∧
    (authMiddleware true [gs "/a/"] (gs "/a") (gs "Bearer tok")
        (fun _ => .ok ⟨gs "u", [], 0⟩)).validatorCalled = true := by
  constructor
  · decide
  · decide

/-- Claim C7, amended: with "matches P under §4.1 semantics" read as
"matches P under the matcher as implemented" (which compares raw strings
for patterns without `*`): whenever the configured route matcher accepts
the request path and auth is enabled, the middleware passes the request
downstream without ever invoking the token validator. -/
theorem C7_public_bypass_amended (routes : List GoStr) (path authHeader : GoStr)
    (validate : GoStr → VOutcome) (hpub : isPublic routes path = true) :
    authMiddleware true routes path authHeader validate
      = { decision := .passNoAuth, validatorCalled := false } := by
  simp [authMiddleware, hpub]

/-- Witness for `C7_public_bypass_amended`: scenario S1's public route. -/
theorem C7_public_bypass_amended_witness :
    authMiddleware true [gs "/rest/auth/otp/*"] (gs "/rest/auth/otp/authenticate") []
        (fun _ => .ok ⟨gs "u", [], 0⟩)
      = { decision := .passNoAuth, validatorCalled := false } :=
  C7_public_bypass_amended [gs "/rest/auth/otp/*"] (gs "/rest/auth/otp/authenticate") []
    (fun _ => .ok ⟨gs "u", [], 0⟩) (by decide)

/-! ## Claim C5 -/

/-- The predicate characterizing the middleware's wildcard walk when a `*`
segment is present: every literal segment BEFORE the first `*` must equal
the corresponding path segment, and nothing after the first `*` is
examined. -/
def litsBeforeStarMatch : List GoStr → List GoStr → Bool
  | [], _ => true
  | p :: ps, qs =>
    if p = starSeg then true
    else
      match qs with
      | [] => false
      | q :: qs2 => if p = q then litsBeforeStarMatch ps qs2 else false

theorem goWalkMw_eq_litsBeforeStar (ps : List GoStr) (hstar : starSeg ∈ ps) :
    ∀ qs, goWalkMw ps qs = litsBeforeStarMatch ps qs := by
  induction ps with
  | nil => simp at hstar
  | cons p ps ih =>
    intro qs
    by_cases hp : p = starSeg
    · simp [goWalkMw, litsBeforeStarMatch, hp]
    · have hstar2 : starSeg ∈ ps := by
        rcases List.mem_cons.mp hstar with h | h
        · exact absurd h.symm hp
        · exact h
      cases qs with
      | nil => simp [goWalkMw, litsBeforeStarMatch, hp]
      | cons q qs2 =>
        by_cases hpq : p = q <;>
          simp [goWalkMw, litsBeforeStarMatch, hp, hpq, ih hstar2]

/-- Claim C5, counterexample: the endpoint pattern "/a/*/b" has a
non-terminal `*`; the path "/a/x/c" does NOT match it under §4.1 semantics
(the `*` consumes "x", then "b" ≠ "c"), yet the middleware selects that
pattern's limiter, because its walk returns success at the first `*`
regardless of what follows. -/
theorem C5_nonterminal_star_counterexample :
    getLimiterForPath [(gs "/a/*/b", (0 : ℕ))] none (gs "/a/x/c") = some 0 ∧
    specMatch41 (gs "/a/*/b") (gs "/a/x/c") = false := by
  constructor
  · decide
  · decide

/-- Claim C5, amended: in the rate-limit middleware a non-terminal `*` does
not consume exactly one segment with the following literals still checked;
instead ANY `*` matches the whole remainder of the path. Precisely: for a
pattern whose cleaned form has a `*` segment before the last position,
(i) the middleware matcher accepts a (cleaned) path iff the pattern has at
most as many segments as the path and every literal segment before the
first `*` equals the corresponding path segment, and (ii) with that pattern
as the only endpoint policy and no exact-match entry for the path, the
middleware selects that pattern's limiter iff the matcher accepts. -/
theorem C5_nonterminal_star_amended (P Q : GoStr) (l : ℕ)
    (hcs : containsStar P = true)
    (hstar : starSeg ∈ (splitSlash (pathClean P)).dropLast)
    (hexact : assocFind [(P, l)] (pathClean Q) = none) :
    (mwMatchPattern P (pathClean Q) = true ↔
      ((splitSlash (pathClean P)).length ≤ (splitSlash (pathClean (pathClean Q))).length ∧
        litsBeforeStarMatch (splitSlash (pathClean P))
          (splitSlash (pathClean (pathClean Q))) = true)) ∧
    (getLimiterForPath [(P, l)] none Q = some l ↔ mwMatchPattern P (pathClean Q) = true) := by
  have hmem : starSeg ∈ splitSlash (pathClean P) := List.dropLast_subset _ hstar
  constructor
  · rw [mwMatchPattern]
    rw [if_pos hcs]
    by_cases hlen : (splitSlash (pathClean (pathClean Q))).length
        < (splitSlash (pathClean P)).length
    · rw [if_pos hlen]
      constructor
      · intro h
        exact absurd h (by simp)
      · intro ⟨h1, _⟩
        omega
    · rw [if_neg hlen]
      rw [goWalkMw_eq_litsBeforeStar _ hmem]
      constructor
      · intro h
        exact ⟨by omega, h⟩
      · intro ⟨_, h⟩
        exact h
  · rw [getLimiterForPath]
    rw [hexact]
    by_cases hm : mwMatchPattern P (pathClean Q) = true
    · simp [List.find?, hm]
    · simp [List.find?, hm]

/-- Witness for `C5_nonterminal_star_amended` at the pattern "/a/*/b" and
path "/a/x/c". -/
theorem C5_nonterminal_star_amended_witness :
    (mwMatchPattern (gs "/a/*/b") (pathClean (gs "/a/x/c")) = true ↔
      ((splitSlash (pathClean (gs "/a/*/b"))).length
          ≤ (splitSlash (pathClean (pathClean (gs "/a/x/c")))).length ∧
        litsBeforeStarMatch (splitSlash (pathClean (gs "/a/*/b")))
          (splitSlash (pathClean (pathClean (gs "/a/x/c")))) = true)) ∧
    (getLimiterForPath [(gs "/a/*/b", (0 : ℕ))] none (gs "/a/x/c") = some 0 ↔
      mwMatchPattern (gs "/a/*/b") (pathClean (gs "/a/x/c")) = true) :=
  C5_nonterminal_star_amended (gs "/a/*/b") (gs "/a/x/c") 0 (by decide) (by decide) (by decide)

/-! ## Claim C8 -/

/-- The operations the claim quantifies over, each carrying the instant at
which `time.Now()` is read (Reset reads no clock). -/
inductive RLOp where
  | allowAt (now : ℤ) (key : GoStr)
  | metricsAt (now : ℤ) (key : GoStr)
  | resetKey (key : GoStr)

/-- The store after one limiter operation. -/
def applyOp (cfg : Config) (obk : Option BackoffConfig) (st : Store) : RLOp → Store
  | .allowAt now key => (allow cfg obk now st key).store
  | .metricsAt now key => (getMetrics cfg now st key).2
  | .resetKey key => reset st key

/-- The store after a sequence of limiter operations. -/
def runOps (cfg : Config) (obk : Option BackoffConfig) : Store → List RLOp → Store
  | st, [] => st
  | st, op :: ops => runOps cfg obk (applyOp cfg obk st op) ops

/-- The clock instant an operation observes, if any. -/
def opTime : RLOp → Option ℤ
  | .allowAt now _ => some now
  | .metricsAt now _ => some now
  | .resetKey _ => none

/-- The clock is monotone along the operation sequence (Go's `time.Now()`
never runs backwards), starting from a lower bound `t`. -/
def TimesMono : ℤ → List RLOp → Prop
  | _, [] => True
  | t, op :: ops =>
    match opTime op with
    | none => TimesMono t ops
    | some u => t ≤ u ∧ TimesMono u ops

/-- The per-bucket invariant of the claim, relative to an instant `t` no
earlier than the bucket's last refill. -/
def BucketOK (cfg : Config) (t : ℤ) (b : Bucket) : Prop :=
  0 ≤ b.tokens ∧ b.tokens ≤ ((cfg.requests + cfg.burstSize : ℤ) : ℚ) ∧ b.lastRefill ≤ t

/-- Every bucket stored in the map satisfies the invariant. -/
def StoreOK (cfg : Config) (t : ℤ) (st : Store) : Prop :=
  ∀ e ∈ st, BucketOK cfg t e.2

theorem bucketOK_mono (cfg : Config) {t t2 : ℤ} {b : Bucket} (h : BucketOK cfg t b)
    (hle : t ≤ t2) : BucketOK cfg t2 b :=
  ⟨h.1, h.2.1, le_trans h.2.2 hle⟩

theorem storeOK_mono (cfg : Config) {t t2 : ℤ} {st : Store} (h : StoreOK cfg t st)
    (hle : t ≤ t2) : StoreOK cfg t2 st :=
  fun e he => bucketOK_mono cfg (h e he) hle

theorem assocFind_mem {α : Type} (st : List (GoStr × α)) (key : GoStr) (v : α)
    (h : assocFind st key = some v) : (key, v) ∈ st := by
  induction st with
  | nil => simp [assocFind] at h
  | cons e rest ih =>
    obtain ⟨k, w⟩ := e
    simp only [assocFind] at h
    by_cases hk : k = key
    · rw [if_pos hk] at h
      subst hk
      simp at h
      simp [h]
    · rw [if_neg hk] at h
      exact List.mem_cons_of_mem _ (ih h)

theorem storeSet_subset (st : Store) (key : GoStr) (bb : Bucket) :
    ∀ e ∈ storeSet st key bb, e ∈ st ∨ e = (key, bb) := by
  induction st with
  | nil => simp [storeSet]
  | cons hd rest ih =>
    obtain ⟨k, w⟩ := hd
    intro e he
    simp only [storeSet] at he
    by_cases hk : k = key
    · rw [if_pos hk] at he
      rcases List.mem_cons.mp he with h | h
      · exact Or.inr h
      · exact Or.inl (List.mem_cons_of_mem _ h)
    · rw [if_neg hk] at he
      rcases List.mem_cons.mp he with h | h
      · exact Or.inl (by simp [h])
      · rcases ih e h with h2 | h2
        · exact Or.inl (List.mem_cons_of_mem _ h2)
        · exact Or.inr h2

theorem storeDelete_subset (st : Store) (key : GoStr) :
    ∀ e ∈ storeDelete st key, e ∈ st := by
  induction st with
  | nil => simp [storeDelete]
  | cons hd rest ih =>
    obtain ⟨k, w⟩ := hd
    intro e he
    simp only [storeDelete] at he
    by_cases hk : k = key
    · rw [if_pos hk] at he
      exact List.mem_cons_of_mem _ he
    · rw [if_neg hk] at he
      rcases List.mem_cons.mp he with h | h
      · simp [h]
      · exact List.mem_cons_of_mem _ (ih e h)

theorem freshBucket_ok (cfg : Config) (now : ℤ) (hreq : 1 ≤ cfg.requests)
    (hburst : 0 ≤ cfg.burstSize) : BucketOK cfg now (freshBucket cfg now) := by
  refine ⟨?_, ?_, ?_⟩
  · show (0 : ℚ) ≤ (cfg.requests : ℚ)
    exact_mod_cast (by omega : (0 : ℤ) ≤ cfg.requests)
  · show (cfg.requests : ℚ) ≤ ((cfg.requests + cfg.burstSize : ℤ) : ℚ)
    exact_mod_cast (by omega : cfg.requests ≤ cfg.requests + cfg.burstSize)
  · show now ≤ now
    exact le_refl now

theorem storeGet_ok (cfg : Config) (t now : ℤ) (st : Store) (key : GoStr)
    (hreq : 1 ≤ cfg.requests) (hburst : 0 ≤ cfg.burstSize)
    (hinv : StoreOK cfg t st) (hle : t ≤ now) :
    BucketOK cfg now (storeGet st key cfg now).1 ∧
    StoreOK cfg now (storeGet st key cfg now).2 := by
  unfold storeGet
  cases hfind : assocFind st key with
  | some b =>
    simp only [hfind]
    exact ⟨bucketOK_mono cfg (hinv _ (assocFind_mem st key b hfind)) hle,
      storeOK_mono cfg hinv hle⟩
  | none =>
    simp only [hfind]
    refine ⟨freshBucket_ok cfg now hreq hburst, ?_⟩
    intro e he
    rcases List.mem_append.mp he with h | h
    · exact bucketOK_mono cfg (hinv e h) hle
    · simp at h
      rw [h]
      exact freshBucket_ok cfg now hreq hburst

theorem storeSet_ok (cfg : Config) (t : ℤ) (st : Store) (key : GoStr) (bb : Bucket)
    (hinv : StoreOK cfg t st) (hbb : BucketOK cfg t bb) :
    StoreOK cfg t (storeSet st key bb) := by
  intro e he
  rcases storeSet_subset st key bb e he with h | h
  · exact hinv e h
  · rw [h]
    exact hbb

theorem refilledTokens_bounds (cfg : Config) (b : Bucket) (now : ℤ)
    (hreq : 1 ≤ cfg.requests) (hwin : 0 < cfg.window) (hburst : 0 ≤ cfg.burstSize)
    (htok : 0 ≤ b.tokens) (href : b.lastRefill ≤ now) :
    0 ≤ refilledTokens cfg b now ∧
    refilledTokens cfg b now ≤ ((cfg.requests + cfg.burstSize : ℤ) : ℚ) := by
  have hadd : 0 ≤ ((cfg.requests : ℚ) / (cfg.window : ℚ)) *
      (((now - b.lastRefill : ℤ) : ℚ) / 1000000000) := by
    apply mul_nonneg
    · apply div_nonneg
      · exact_mod_cast (by omega : (0 : ℤ) ≤ cfg.requests)
      · exact_mod_cast hwin.le
    · apply div_nonneg
      · exact_mod_cast (by omega : (0 : ℤ) ≤ now - b.lastRefill)
      · norm_num
  have hmax : (0 : ℚ) ≤ ((cfg.requests + cfg.burstSize : ℤ) : ℚ) := by
    exact_mod_cast (by omega : (0 : ℤ) ≤ cfg.requests + cfg.burstSize)
  unfold refilledTokens qmin
  constructor
  · split
    · linarith
    · exact hmax
  · split
    · assumption
    · exact le_refl _

theorem allow_preserves (cfg : Config) (obk : Option BackoffConfig) (t now : ℤ)
    (st : Store) (key : GoStr)
    (hreq : 1 ≤ cfg.requests) (hwin : 0 < cfg.window) (hburst : 0 ≤ cfg.burstSize)
    (hle : t ≤ now) (hinv : StoreOK cfg t st) :
    StoreOK cfg now (allow cfg obk now st key).store := by
  obtain ⟨hb0, hst1⟩ := storeGet_ok cfg t now st key hreq hburst hinv hle
  by_cases hba : backoffActive obk (storeGet st key cfg now).1 now = true
  · have heq : (allow cfg obk now st key).store = (storeGet st key cfg now).2 := by
      simp only [allow]
      rw [if_pos hba]
    rw [heq]
    exact hst1
  · obtain ⟨hge, hle2⟩ := refilledTokens_bounds cfg (storeGet st key cfg now).1 now hreq hwin
      hburst hb0.1 hb0.2.2
    by_cases hadm : (1 : ℚ) ≤ refilledTokens cfg (storeGet st key cfg now).1 now
    · have heq : (allow cfg obk now st key).store
          = storeSet (storeGet st key cfg now).2 key
              { (storeGet st key cfg now).1 with
                tokens := refilledTokens cfg (storeGet st key cfg now).1 now - 1,
                lastRefill := now } := by
        simp only [allow]
        rw [if_neg hba, if_pos hadm]
      rw [heq]
      refine storeSet_ok cfg now _ key _ hst1 ⟨?_, ?_, ?_⟩
      · show (0 : ℚ) ≤ refilledTokens cfg (storeGet st key cfg now).1 now - 1
        linarith
      · show refilledTokens cfg (storeGet st key cfg now).1 now - 1
          ≤ ((cfg.requests + cfg.burstSize : ℤ) : ℚ)
        linarith
      · show now ≤ now
        exact le_refl now
    · cases obk with
      | none =>
        have heq : (allow cfg none now st key).store
            = storeSet (storeGet st key cfg now).2 key
                { (storeGet st key cfg now).1 with
                  tokens := refilledTokens cfg (storeGet st key cfg now).1 now,
                  lastRefill := now,
                  violations := (storeGet st key cfg now).1.violations + 1,
                  lastViolation := now } := by
          simp only [allow, Bool.false_eq_true, if_false]
          rw [if_neg hba, if_neg hadm]
        rw [heq]
        refine storeSet_ok cfg now _ key _ hst1 ⟨?_, ?_, ?_⟩
        · show (0 : ℚ) ≤ refilledTokens cfg (storeGet st key cfg now).1 now
          exact hge
        · show refilledTokens cfg (storeGet st key cfg now).1 now
            ≤ ((cfg.requests + cfg.burstSize : ℤ) : ℚ)
          exact hle2
        · show now ≤ now
          exact le_refl now
      | some bk =>
        by_cases hbk : bk.enabled = true
        · have heq : (allow cfg (some bk) now st key).store
              = storeSet (storeGet st key cfg now).2 key
                  { (storeGet st key cfg now).1 with
                    tokens := refilledTokens cfg (storeGet st key cfg now).1 now,
                    lastRefill := now,
                    violations := (storeGet st key cfg now).1.violations + 1,
                    lastViolation := now,
                    backoffUntil := now + calculateBackoff (some bk)
                      ((storeGet st key cfg now).1.violations + 1) } := by
            simp only [allow]
            rw [if_neg hba, if_neg hadm, if_pos hbk]
          rw [heq]
          refine storeSet_ok cfg now _ key _ hst1 ⟨?_, ?_, ?_⟩
          · show (0 : ℚ) ≤ refilledTokens cfg (storeGet st key cfg now).1 now
            exact hge
          · show refilledTokens cfg (storeGet st key cfg now).1 now
              ≤ ((cfg.requests + cfg.burstSize : ℤ) : ℚ)
            exact hle2
          · show now ≤ now
            exact le_refl now
        · have heq : (allow cfg (some bk) now st key).store
              = storeSet (storeGet st key cfg now).2 key
                  { (storeGet st key cfg now).1 with
                    tokens := refilledTokens cfg (storeGet st key cfg now).1 now,
                    lastRefill := now,
                    violations := (storeGet st key cfg now).1.violations + 1,
                    lastViolation := now } := by
            simp only [allow]
            rw [if_neg hba, if_neg hadm, if_neg hbk]
          rw [heq]
          refine storeSet_ok cfg now _ key _ hst1 ⟨?_, ?_, ?_⟩
          · show (0 : ℚ) ≤ refilledTokens cfg (storeGet st key cfg now).1 now
            exact hge
          · show refilledTokens cfg (storeGet st key cfg now).1 now
              ≤ ((cfg.requests + cfg.burstSize : ℤ) : ℚ)
            exact hle2
          · show now ≤ now
            exact le_refl now

theorem getMetrics_preserves (cfg : Config) (t now : ℤ) (st : Store) (key : GoStr)
    (hreq : 1 ≤ cfg.requests) (hburst : 0 ≤ cfg.burstSize)
    (hle : t ≤ now) (hinv : StoreOK cfg t st) :
    StoreOK cfg now (getMetrics cfg now st key).2 :=
  (storeGet_ok cfg t now st key hreq hburst hinv hle).2

theorem reset_preserves (cfg : Config) (t : ℤ) (st : Store) (key : GoStr)
    (hinv : StoreOK cfg t st) : StoreOK cfg t (reset st key) :=
  fun e he => hinv e (storeDelete_subset st key e he)

theorem runOps_ok (cfg : Config) (obk : Option BackoffConfig)
    (hreq : 1 ≤ cfg.requests) (hwin : 0 < cfg.window) (hburst : 0 ≤ cfg.burstSize) :
    ∀ (ops : List RLOp) (st : Store) (t : ℤ), StoreOK cfg t st → TimesMono t ops →
      ∃ t2, StoreOK cfg t2 (runOps cfg obk st ops) := by
  intro ops
  induction ops with
  | nil => exact fun st t h _ => ⟨t, h⟩
  | cons op ops ih =>
    intro st t hinv hmono
    cases op with
    | allowAt now key =>
      obtain ⟨hle, hmono2⟩ := hmono
      exact ih _ now (allow_preserves cfg obk t now st key hreq hwin hburst hle hinv) hmono2
    | metricsAt now key =>
      obtain ⟨hle, hmono2⟩ := hmono
      exact ih _ now (getMetrics_preserves cfg t now st key hreq hburst hle hinv) hmono2
    | resetKey key =>
      exact ih _ t (reset_preserves cfg t st key hinv) hmono

/-- Claim C8: for a policy with requests ≥ 1, window > 0 and burst ≥ 0, and
any sequence of Allow / GetMetrics / Reset calls observed at monotone
clock instants, every bucket in the resulting store — including the one
created lazily at first access — satisfies 0 ≤ tokens ≤ requests + burst;
in particular no admit decision leaves tokens below zero (the bound holds
after every prefix of the sequence, since the sequence is universally
quantified). -/
theorem C8_token_invariant (cfg : Config) (obk : Option BackoffConfig)
    (hreq : 1 ≤ cfg.requests) (hwin : 0 < cfg.window) (hburst : 0 ≤ cfg.burstSize)
    (ops : List RLOp) (t0 : ℤ) (hmono : TimesMono t0 ops) :
    ∀ key b, assocFind (runOps cfg obk [] ops) key = some b →
      0 ≤ b.tokens ∧ b.tokens ≤ ((cfg.requests + cfg.burstSize : ℤ) : ℚ) := by
  obtain ⟨t2, hok⟩ := runOps_ok cfg obk hreq hwin hburst ops [] t0 (by intro e he; simp at he)
    hmono
  intro key b hfind
  have h := hok _ (assocFind_mem _ key b hfind)
  exact ⟨h.1, h.2.1⟩

/-- Witness for `C8_token_invariant`: policy (5, 60s, 2) with two Allow
calls, a GetMetrics and a Reset at increasing instants; the bucket left for
key "k" holds 3 + 1/6·10¹⁸ tokens, within [0, 7]. -/
theorem C8_token_invariant_witness :
    (0 : ℚ) ≤ (⟨3 + 1 / 6000000000000000000, 2, 0, 0, 0⟩ : Bucket).tokens ∧
    (⟨3 + 1 / 6000000000000000000, 2, 0, 0, 0⟩ : Bucket).tokens
      ≤ (((5 : ℤ) + 2 : ℤ) : ℚ) :=
  C8_token_invariant ⟨5, 60000000000, 2⟩ none (by norm_num) (by norm_num) (by norm_num)
    [.allowAt 0 (gs "k"), .metricsAt 1 (gs "k"), .allowAt 2 (gs "k"), .resetKey (gs "j")] 0
    ⟨by norm_num, by norm_num, by norm_num, trivial⟩ (gs "k")
    ⟨3 + 1 / 6000000000000000000, 2, 0, 0, 0⟩
    (by norm_num [runOps, applyOp, allow, refilledTokens, getMetrics, reset, storeGet,
      storeDelete, assocFind, freshBucket, backoffActive, qmin, storeSet, gs, truncQ,
      wrap64])

/-! ## Claim C6 -/

theorem splitSlash_ne_nil (s : GoStr) : splitSlash s ≠ [] := by
  cases s with
  | nil => simp [splitSlash]
  | cons c cs =>
    simp only [splitSlash]
    by_cases hc : c = '/'
    · simp [hc]
    · rw [if_neg hc]
      cases splitSlash cs <;> simp

theorem splitSlash_no_slash (s : GoStr) : ∀ t ∈ splitSlash s, '/' ∉ t := by
  induction s with
  | nil =>
    intro t ht
    simp [splitSlash] at ht
    simp [ht]
  | cons c cs ih =>
    intro t ht
    simp only [splitSlash] at ht
    by_cases hc : c = '/'
    · rw [if_pos hc] at ht
      rcases List.mem_cons.mp ht with h | h
      · simp [h]
      · exact ih t h
    · rw [if_neg hc] at ht
      cases hsp : splitSlash cs with
      | nil => exact absurd hsp (splitSlash_ne_nil cs)
      | cons s1 ss =>
        rw [hsp] at ht
        rcases List.mem_cons.mp ht with h | h
        · rw [h]
          intro hmem
          rcases List.mem_cons.mp hmem with h2 | h2
          · exact hc h2.symm
          · exact ih s1 (by rw [hsp]; exact List.mem_cons_self s1 ss) h2
        · exact ih t (by rw [hsp]; exact List.mem_cons_of_mem s1 h)

theorem splitSlash_of_no_slash (t : GoStr) (h : '/' ∉ t) : splitSlash t = [t] := by
  induction t with
  | nil => rfl
  | cons c cs ih =>
    have hc : c ≠ '/' := fun hc => h (by rw [hc]; exact List.mem_cons_self _ _)
    have hcs : '/' ∉ cs := fun h2 => h (List.mem_cons_of_mem _ h2)
    simp only [splitSlash]
    rw [if_neg (fun h2 => hc h2), ih hcs]

theorem splitSlash_append_slash (t rest : GoStr) (h : '/' ∉ t) :
    splitSlash (t ++ '/' :: rest) = t :: splitSlash rest := by
  induction t with
  | nil => simp [splitSlash]
  | cons c cs ih =>
    have hc : c ≠ '/' := fun hc => h (by rw [hc]; exact List.mem_cons_self _ _)
    have hcs : '/' ∉ cs := fun h2 => h (List.mem_cons_of_mem _ h2)
    simp only [List.cons_append, splitSlash]
    rw [if_neg (fun h2 => hc h2), List.append_eq, ih hcs]

theorem splitSlash_joinSlash (l : List GoStr) (hne : l ≠ [])
    (hns : ∀ t ∈ l, '/' ∉ t) : splitSlash (joinSlash l) = l := by
  induction l with
  | nil => exact absurd rfl hne
  | cons t rest ih =>
    cases rest with
    | nil =>
      show splitSlash (joinSlash [t]) = [t]
      exact splitSlash_of_no_slash t (hns t (List.mem_cons_self _ _))
    | cons t2 rest2 =>
      show splitSlash (t ++ '/' :: joinSlash (t2 :: rest2)) = t :: t2 :: rest2
      rw [splitSlash_append_slash t _ (hns t (List.mem_cons_self _ _))]
      rw [ih (by simp) (fun u hu => hns u (List.mem_cons_of_mem _ hu))]

theorem filter_keepSeg_decomp (l : List GoStr) :
    l.filter keepSeg
      = (l.filter (fun t => decide (t ≠ []))).filter (fun t => decide (t ≠ ['.'])) := by
  rw [List.filter_filter]
  apply List.filter_congr
  intro a _
  by_cases h1 : a = [] <;> by_cases h2 : a = ['.'] <;> simp [keepSeg, h1, h2]

theorem isRooted_normalizePath (s : GoStr) : isRooted (normalizePath s) = isRooted s := by
  unfold normalizePath
  by_cases hr : isRooted s = true
  · rw [if_pos hr, hr]
    rfl
  · rw [Bool.not_eq_true] at hr
    rw [hr, if_neg (by simp)]
    cases hsegs : (splitSlash s).filter (fun t => decide (t ≠ [])) with
    | nil => rfl
    | cons t rest =>
      have htmem : t ∈ (splitSlash s).filter (fun t => decide (t ≠ [])) := by
        rw [hsegs]
        exact List.mem_cons_self t rest
      have htne : t ≠ [] := by
        have := (List.mem_filter.mp htmem).2
        simpa using this
      have htns : '/' ∉ t := splitSlash_no_slash s t (List.mem_of_mem_filter htmem)
      cases t with
      | nil => exact absurd rfl htne
      | cons c t2 =>
        have hc : c ≠ '/' := fun hcc => htns (by rw [hcc]; exact List.mem_cons_self _ _)
        cases rest with
        | nil => simp [joinSlash, isRooted, hc]
        | cons u us => simp [joinSlash, isRooted, hc]

theorem normalizePath_ne_nil (s : GoStr) (h : s ≠ []) : normalizePath s ≠ [] := by
  unfold normalizePath
  by_cases hr : isRooted s = true
  · rw [if_pos hr]
    simp
  · rw [if_neg hr]
    cases s with
    | nil => exact absurd rfl h
    | cons c cs =>
      have hc : c ≠ '/' := by
        intro hcc
        apply hr
        rw [hcc]
        rfl
      cases hsp : splitSlash cs with
      | nil => exact absurd hsp (splitSlash_ne_nil cs)
      | cons s1 ss =>
        have hsplit : splitSlash (c :: cs) = (c :: s1) :: ss := by
          simp only [splitSlash]
          rw [if_neg hc, hsp]
        rw [hsplit]
        rw [List.filter_cons]
        rw [if_pos (by simp)]
        cases hft : ss.filter (fun t => decide (t ≠ [])) with
        | nil => simp [joinSlash]
        | cons u us => simp [joinSlash]

theorem filter_keepSeg_join_core (s : GoStr) :
    (splitSlash (joinSlash ((splitSlash s).filter (fun t => decide (t ≠ []))))).filter keepSeg
      = (splitSlash s).filter keepSeg := by
  by_cases hE : (splitSlash s).filter (fun t => decide (t ≠ [])) = []
  · rw [hE, filter_keepSeg_decomp (splitSlash s), hE]
    rfl
  · have hsub : ∀ t ∈ (splitSlash s).filter (fun t => decide (t ≠ [])), '/' ∉ t :=
      fun t ht => splitSlash_no_slash s t (List.mem_of_mem_filter ht)
    have hself : ((splitSlash s).filter (fun t => decide (t ≠ []))).filter
        (fun t => decide (t ≠ [])) = (splitSlash s).filter (fun t => decide (t ≠ [])) := by
      apply List.filter_eq_self.mpr
      intro a ha
      exact (List.mem_filter.mp ha).2
    rw [splitSlash_joinSlash _ hE hsub]
    rw [filter_keepSeg_decomp ((splitSlash s).filter (fun t => decide (t ≠ [])))]
    rw [hself]
    rw [filter_keepSeg_decomp (splitSlash s)]

theorem filter_keepSeg_normalizePath (s : GoStr) :
    (splitSlash (normalizePath s)).filter keepSeg = (splitSlash s).filter keepSeg := by
  unfold normalizePath
  by_cases hr : isRooted s = true
  · rw [if_pos hr]
    have hsplit : splitSlash ('/' ::
        joinSlash ((splitSlash s).filter (fun t => decide (t ≠ []))))
        = [] :: splitSlash (joinSlash ((splitSlash s).filter (fun t => decide (t ≠ [])))) := by
      simp [splitSlash]
    rw [hsplit, List.filter_cons]
    rw [if_neg (by simp [keepSeg])]
    exact filter_keepSeg_join_core s
  · rw [if_neg hr]
    exact filter_keepSeg_join_core s

theorem pathClean_normalizePath (s : GoStr) : pathClean (normalizePath s) = pathClean s := by
  by_cases hs : s = []
  · rw [hs]
    rfl
  · have hn := normalizePath_ne_nil s hs
    simp only [pathClean]
    rw [if_neg hn, if_neg hs, isRooted_normalizePath, filter_keepSeg_normalizePath]

theorem star_mem_joinSlash (l : List GoStr) :
    '*' ∈ joinSlash l ↔ ∃ t ∈ l, '*' ∈ t := by
  induction l with
  | nil => simp [joinSlash]
  | cons t rest ih =>
    cases rest with
    | nil => simp [joinSlash]
    | cons u us =>
      show '*' ∈ t ++ '/' :: joinSlash (u :: us) ↔ _
      rw [List.mem_append, List.mem_cons]
      constructor
      · rintro (h | h | h)
        · exact ⟨t, List.mem_cons_self _ _, h⟩
        · exact absurd h (by decide)
        · obtain ⟨v, hv, hsv⟩ := ih.mp h
          exact ⟨v, List.mem_cons_of_mem _ hv, hsv⟩
      · rintro ⟨v, hv, hsv⟩
        rcases List.mem_cons.mp hv with h | h
        · exact Or.inl (h ▸ hsv)
        · exact Or.inr (Or.inr (ih.mpr ⟨v, h, hsv⟩))

theorem star_mem_splitSlash (s : GoStr) :
    '*' ∈ s ↔ ∃ t ∈ splitSlash s, '*' ∈ t := by
  induction s with
  | nil => simp [splitSlash]
  | cons c cs ih =>
    by_cases hc : c = '/'
    · subst hc
      rw [show splitSlash ('/' :: cs) = [] :: splitSlash cs by simp [splitSlash]]
      rw [List.mem_cons]
      constructor
      · rintro (h | h)
        · exact absurd h (by decide)
        · obtain ⟨t, ht, hst⟩ := ih.mp h
          exact ⟨t, List.mem_cons_of_mem _ ht, hst⟩
      · rintro ⟨t, ht, hst⟩
        rcases List.mem_cons.mp ht with h | h
        · rw [h] at hst
          simp at hst
        · exact Or.inr (ih.mpr ⟨t, h, hst⟩)
    · cases hsp : splitSlash cs with
      | nil => exact absurd hsp (splitSlash_ne_nil cs)
      | cons s1 ss =>
        rw [hsp] at ih
        have hsplit : splitSlash (c :: cs) = (c :: s1) :: ss := by
          simp only [splitSlash]
          rw [if_neg hc, hsp]
        rw [hsplit, List.mem_cons]
        constructor
        · rintro (h | h)
          · exact ⟨c :: s1, List.mem_cons_self _ _, List.mem_cons.mpr (Or.inl h)⟩
          · obtain ⟨t, ht, hst⟩ := ih.mp h
            rcases List.mem_cons.mp ht with h2 | h2
            · exact ⟨c :: s1, List.mem_cons_self _ _,
                List.mem_cons.mpr (Or.inr (h2 ▸ hst))⟩
            · exact ⟨t, List.mem_cons_of_mem _ h2, hst⟩
        · rintro ⟨t, ht, hst⟩
          rcases List.mem_cons.mp ht with h2 | h2
          · subst h2
            rcases List.mem_cons.mp hst with h3 | h3
            · exact Or.inl h3
            · exact Or.inr (ih.mpr ⟨s1, List.mem_cons_self _ _, h3⟩)
          · exact Or.inr (ih.mpr ⟨t, List.mem_cons_of_mem _ h2, hst⟩)

theorem star_mem_filter_nonempty (l : List GoStr) :
    (∃ t ∈ l.filter (fun t => decide (t ≠ [])), '*' ∈ t) ↔ ∃ t ∈ l, '*' ∈ t := by
  constructor
  · rintro ⟨t, ht, hst⟩
    exact ⟨t, List.mem_of_mem_filter ht, hst⟩
  · rintro ⟨t, ht, hst⟩
    refine ⟨t, List.mem_filter.mpr ⟨ht, ?_⟩, hst⟩
    simp [List.ne_nil_of_mem hst]

theorem containsStar_normalizePath (s : GoStr) :
    containsStar (normalizePath s) = containsStar s := by
  have key : '*' ∈ normalizePath s ↔ '*' ∈ s := by
    rw [star_mem_splitSlash s, ← star_mem_filter_nonempty (splitSlash s)]
    unfold normalizePath
    by_cases hr : isRooted s = true
    · rw [if_pos hr, List.mem_cons]
      constructor
      · rintro (h | h)
        · exact absurd h (by decide)
        · exact (star_mem_joinSlash _).mp h
      · intro h
        exact Or.inr ((star_mem_joinSlash _).mpr h)
    · rw [if_neg hr]
      exact star_mem_joinSlash _
  unfold containsStar
  exact decide_eq_decide.mpr key

theorem goWalkRoutes_self (l : List GoStr) : goWalkRoutes l l = true := by
  induction l with
  | nil => rfl
  | cons p ps ih =>
    simp only [goWalkRoutes]
    by_cases hp : p = starSeg
    · rw [if_pos hp]
      by_cases hps : ps = []
      · rw [if_pos hps]
      · rw [if_neg hps]
        simpa using ih
    · rw [if_neg hp]
      simpa using ih

/-- Claim C6, counterexample: for the pattern "/a/" (no `*`) and path "/a",
the two sides normalize to the same string — so the claimed equation
`match(P, Q) = match(normalize(P), normalize(Q))` forces a match — yet the
matcher compares the raw strings and returns false. -/
theorem C6_normalization_counterexample :
    routesMatchPattern (gs "/a/") (gs "/a")
      ≠ routesMatchPattern (normalizePath (gs "/a/")) (normalizePath (gs "/a")) ∧
    normalizePath (gs "/a/") = normalizePath (gs "/a") ∧
    routesMatchPattern (gs "/a/") (gs "/a") = false := by
  refine ⟨?_, ?_, ?_⟩ <;> decide

/-- Claim C6, amended: the normalization-invariance equation
`match(P, Q) = match(normalize(P), normalize(Q))` holds for every pattern
that CONTAINS `*` (the matcher cleans both sides before its wildcard walk),
but a pattern containing no `*` matches by exact equality of the RAW
strings, with no normalization of either side. -/
theorem C6_normalization_amended :
    (∀ P Q : GoStr, containsStar P = true →
      routesMatchPattern P Q = routesMatchPattern (normalizePath P) (normalizePath Q)) ∧
    (∀ P Q : GoStr, containsStar P = false →
      (routesMatchPattern P Q = true ↔ P = Q)) := by
  constructor
  · intro P Q hcs
    by_cases hpq : P = Q
    · subst hpq
      simp [routesMatchPattern]
    · by_cases hn : normalizePath P = normalizePath Q
      · have hc : pathClean P = pathClean Q := by
          rw [← pathClean_normalizePath P, hn, pathClean_normalizePath Q]
        simp only [routesMatchPattern]
        rw [if_neg hpq, if_pos hcs, if_pos hn, hc]
        rw [if_neg (lt_irrefl _)]
        exact goWalkRoutes_self _
      · simp only [routesMatchPattern]
        rw [if_neg hpq, if_pos hcs, if_neg hn,
          if_pos (show containsStar (normalizePath P) = true by
            rw [containsStar_normalizePath]; exact hcs)]
        rw [pathClean_normalizePath, pathClean_normalizePath]
  · intro P Q hcs
    simp only [routesMatchPattern]
    by_cases hpq : P = Q
    · rw [if_pos hpq]
      simp [hpq]
    · rw [if_neg hpq, if_neg (by rw [hcs]; simp)]
      simp [hpq]

/-- Witness for `C6_normalization_amended`: a wildcard pattern with a
duplicate slash and a path with a trailing slash, and an exact-match
pattern. -/
theorem C6_normalization_amended_witness :
    routesMatchPattern (gs "/api//auth/*") (gs "/api/auth/login/")
      = routesMatchPattern (normalizePath (gs "/api//auth/*"))
          (normalizePath (gs "/api/auth/login/")) ∧
    (routesMatchPattern (gs "/api/auth") (gs "/api/auth") = true ↔
      gs "/api/auth" = gs "/api/auth") :=
  ⟨C6_normalization_amended.1 (gs "/api//auth/*") (gs "/api/auth/login/") (by decide),
   C6_normalization_amended.2 (gs "/api/auth") (gs "/api/auth") (by decide)⟩
